import Mathlib

/-!
Verification of GitCodeScraper (git-code-scraper.py).

Shallow embedding of the scraper's data model and operations:
* path handling mirrors Python `pathlib.PurePosixPath` (parts, name, parent, suffix);
* Python `str.split(sep)`, `str.strip(chars)` are embedded on `List Char`;
* the constructor, ignore-file loader, file filter, remote and local scrape
  loops and the LLM formatter are translated from the source;
* network and filesystem are passed in as explicit oracles.
-/

namespace GitScrap

/-- Python `str.split(sep)` with a single-character separator: splitting an
empty string gives `[[]]`, and empty pieces are kept. -/
def splitOnChar (c : Char) : List Char → List (List Char)
  | [] => [[]]
  | x :: xs =>
    let r := splitOnChar c xs
    if x = c then [] :: r
    else
      match r with
      | [] => [[x]]
      | h :: t => (x :: h) :: t

/-- Strip all leading occurrences of `c` (left half of Python `str.strip(c)`). -/
def lstripChar (c : Char) (cs : List Char) : List Char :=
  cs.dropWhile (fun x => x == c)

/-- Strip all trailing occurrences of `c` (right half of Python `str.strip(c)`). -/
def rstripChar (c : Char) (cs : List Char) : List Char :=
  ((cs.reverse).dropWhile (fun x => x == c)).reverse

/-- Python `str.strip(c)`: remove `c` from both ends. -/
def stripChar (c : Char) (cs : List Char) : List Char :=
  rstripChar c (lstripChar c cs)

/-- Python whitespace characters recognized by `str.strip()`. -/
def isPyWS (c : Char) : Bool :=
  c == ' ' || c == '\t' || c == '\n' || c == '\r' || c == '\x0b' || c == '\x0c'

/-- Python `str.strip()` (no argument): strip whitespace from both ends. -/
def pyStripWS (s : String) : String :=
  String.mk (((s.toList.dropWhile isPyWS).reverse.dropWhile isPyWS).reverse)

/-- Python `sep.join(list)`. -/
def pyJoinStr (sep : String) : List String → String
  | [] => ""
  | [x] => x
  | x :: xs => x ++ sep ++ pyJoinStr sep xs

/-- Python `str.startswith`, computed on the character lists. -/
def strStartsWith (s pre : String) : Bool :=
  pre.toList.isPrefixOf s.toList

/-- Python `str.endswith`, computed on the character lists. -/
def strEndsWith (s post : String) : Bool :=
  post.toList.isSuffixOf s.toList

/-- Python `s[n:]`, computed on the character lists. -/
def strDrop (s : String) (n : Nat) : String :=
  String.mk (s.toList.drop n)

/-! ## Paths (pathlib.PurePosixPath) -/

/-- A POSIX path as pathlib represents it: the tuple of `parts`.  For an
absolute path the first part is the root marker `"/"`; `"."` and empty
segments are dropped by construction, exactly as pathlib normalizes. -/
structure PyPath where
  parts : List String
deriving DecidableEq, Repr

/-- The normalized segments of a path string: split on `/`, drop empty and
`"."` pieces (pathlib normalization). -/
def pathSegs (s : String) : List String :=
  ((splitOnChar '/' s.toList).map (fun l => String.mk l)).filter
    (fun t => !(t == "") && !(t == "."))

/-- `pathlib.PurePosixPath(s)`: parts are the normalized segments, preceded by
the root marker `"/"` when the string is absolute. -/
def PyPath.ofString (s : String) : PyPath :=
  if strStartsWith s "/" then ⟨"/" :: pathSegs s⟩ else ⟨pathSegs s⟩

/-- `Path.name`: final component; empty for the root path and for `"."`. -/
def PyPath.name (p : PyPath) : String :=
  match p.parts.getLast? with
  | none => ""
  | some s => if s = "/" then "" else s

/-- `Path.parent`: drop the final component; the top (`"."` or `"/"`) is its
own parent. -/
def PyPath.parent (p : PyPath) : PyPath :=
  if p.parts = [] ∨ p.parts = ["/"] then p else ⟨p.parts.dropLast⟩

/-- `Path.suffix` of a file name: the substring from the last dot (inclusive),
provided that dot is neither the first nor past the last character. -/
def pySuffixOfName (name : String) : String :=
  let cs := name.toList
  let afterRev := cs.reverse.takeWhile (fun c => !(c == '.'))
  if afterRev.length = cs.length then ""
  else
    let i := cs.length - 1 - afterRev.length
    if 0 < i ∧ i < cs.length - 1 then String.mk (cs.drop i) else ""

/-- `Path.suffix`. -/
def PyPath.suffix (p : PyPath) : String :=
  pySuffixOfName p.name

/-- Whether the path is absolute (its first part is the root marker). -/
def PyPath.isAbs (p : PyPath) : Bool :=
  p.parts.head? == some "/"

/-! ## Scraper state and constructor -/

/-- Outcome of opening and reading a file, the effect `_load_ignore_file`
observes: success with the text, `FileNotFoundError`, or any other error. -/
inductive ReadOutcome
  | ok (content : String)
  | notFound
  | otherError
deriving DecidableEq, Repr

/-- A Python `set` of strings, represented by its elements in insertion
order; the program only observes membership and addition. -/
abbrev PySet := List String

/-- Python `set.add`: a no-op when the element is present. -/
def pySetInsert (x : String) (s : PySet) : PySet :=
  if x ∈ s then s else s ++ [x]

/-- Python set subset, as containment of the represented elements. -/
def pySubset (s t : PySet) : Prop :=
  ∀ x : String, x ∈ s → x ∈ t

/-- The fields of `GitCodeScraper` relevant to the pipeline (logger and the
GitPython handle are omitted; repository connectivity is an explicit oracle
where needed). -/
structure Scraper where
  repo_path : String
  default_ignored_dirs : PySet
  ignored_dirs : PySet
  file_extensions : PySet
  ignored_files : PySet
  token : Option String
  branch : String
  is_remote : Bool
  remote_owner : String
  remote_repo : String
deriving DecidableEq

/-- Python `x or d` on an optional set argument: `None` and the empty set are
falsy, so both fall back to the default. -/
def pyOrSet (o : Option PySet) (d : PySet) : PySet :=
  match o with
  | none => d
  | some s => if s = ([] : List String) then d else s

/-- The built-in `default_ignored_dirs` set. -/
def defaultIgnoredDirs : PySet :=
  ["venv", "node_modules", ".git", "__pycache__"]

/-- The built-in default `file_extensions` set. -/
def defaultFileExtensions : PySet :=
  [".py", ".js", ".java", ".cpp", ".ts", ".jsx", ".tsx"]

/-- The path component of a URL as `urllib.parse.urlparse` extracts it for an
`http://` or `https://` reference: drop the scheme, drop the network location
(up to the first `/`, `?` or `#`), and keep characters up to `?` or `#`. -/
def urlPathOf (url : String) : List Char :=
  let rest :=
    if strStartsWith url "http://" then url.toList.drop 7
    else if strStartsWith url "https://" then url.toList.drop 8
    else url.toList
  let afterHost := rest.dropWhile (fun c => !(c == '/') && !(c == '?') && !(c == '#'))
  afterHost.takeWhile (fun c => !(c == '?') && !(c == '#'))

/-- Section marker while parsing the ignore configuration. -/
inductive IgnSection
  | noneS
  | filesS
  | dirsS
deriving DecidableEq, Repr

/-- Ignore-rule state carried through the configuration parse. -/
structure IgnoreSt where
  ignored_files : PySet
  ignored_dirs : PySet
deriving DecidableEq

/-- The branch structure of the parsing loop body, applied to the already
stripped line: skip blanks and `#` comments, switch section on a header,
otherwise add the line to the current section (dropped when no header has
been seen). -/
def parseIgnoreLineCore (st : IgnoreSt × IgnSection) (l : String) : IgnoreSt × IgnSection :=
  if l = "" ∨ strStartsWith l "#" then st
  else if l = "[files]" then (st.1, IgnSection.filesS)
  else if l = "[directories]" then (st.1, IgnSection.dirsS)
  else
    match st.2 with
    | IgnSection.filesS =>
      ({ st.1 with ignored_files := pySetInsert l st.1.ignored_files }, st.2)
    | IgnSection.dirsS =>
      ({ st.1 with ignored_dirs := pySetInsert l st.1.ignored_dirs }, st.2)
    | IgnSection.noneS => st

/-- One iteration of the parsing loop in `_load_ignore_file`: the line is
stripped first (`line = line.strip()`). -/
def parseIgnoreLine (st : IgnoreSt × IgnSection) (line : String) : IgnoreSt × IgnSection :=
  parseIgnoreLineCore st (pyStripWS line)

/-- The parsing loop of `_load_ignore_file` over all lines, starting with no
section selected. -/
def parseIgnoreLines (st : IgnoreSt) (lines : List String) : IgnoreSt :=
  (lines.foldl parseIgnoreLine (st, IgnSection.noneS)).1

/-- `readlines` followed by the per-line `strip()`: modelled as splitting the
text on newlines (the stripped lines coincide). -/
def pyReadlines (content : String) : List String :=
  (splitOnChar '\n' content.toList).map (fun l => String.mk l)

/-- `_load_ignore_file`: on a successful read, run the parsing loop over the
lines; `FileNotFoundError` and any other error are caught and leave the rule
sets exactly as parsing had left them (the read fails before any line is
interpreted, so they are unchanged). -/
def load_ignore_file (sc : Scraper) (outcome : ReadOutcome) : Scraper :=
  match outcome with
  | ReadOutcome.ok content =>
    let st := parseIgnoreLines ⟨sc.ignored_files, sc.ignored_dirs⟩ (pyReadlines content)
    { sc with ignored_files := st.ignored_files, ignored_dirs := st.ignored_dirs }
  | ReadOutcome.notFound => sc
  | ReadOutcome.otherError => sc

/-- The field assignments and URL classification of `GitCodeScraper.__init__`
before the optional ignore-file load.  A remote reference whose URL path
yields fewer than two `/`-separated pieces (after `strip("/")`) raises
`ValueError`, modelled as `Except.error`. -/
def mkScraperRaw (repo_path : String) (ignored_dirs : Option PySet)
    (file_extensions : Option PySet)
    (token : Option String) (branch : String) : Except String Scraper :=
  let base : Scraper :=
    { repo_path := repo_path
      default_ignored_dirs := defaultIgnoredDirs
      ignored_dirs := pyOrSet ignored_dirs defaultIgnoredDirs
      file_extensions := pyOrSet file_extensions defaultFileExtensions
      ignored_files := []
      token := token
      branch := branch
      is_remote := false
      remote_owner := ""
      remote_repo := "" }
  if strStartsWith repo_path "http://" || strStartsWith repo_path "https://" then
    let path_parts :=
      (splitOnChar '/' (stripChar '/' (urlPathOf repo_path))).map (fun l => String.mk l)
    if path_parts.length < 2 then
      Except.error "Invalid repository URL. Expected format: \x27https://github.com/owner/repo\x27"
    else
      Except.ok { base with
        is_remote := true
        remote_owner := path_parts.getD 0 ""
        remote_repo := path_parts.getD 1 "" }
  else Except.ok base

/-- `GitCodeScraper.__init__`: the raw construction followed by the
ignore-file load when an ignore file is given (its read outcome is the
`ignore_file` argument). -/
def mkScraper (repo_path : String) (ignored_dirs : Option PySet)
    (file_extensions : Option PySet) (ignore_file : Option ReadOutcome)
    (token : Option String) (branch : String) : Except String Scraper :=
  match mkScraperRaw repo_path ignored_dirs file_extensions token branch with
  | Except.error e => Except.error e
  | Except.ok sc =>
    Except.ok (match ignore_file with
      | some oc => load_ignore_file sc oc
      | none => sc)

/-! ## The inclusion predicate `_should_process_file` -/

/-- The local-mode while loop of `_should_process_file`: walk from the
candidate up through its parents until the repository root is reached,
rejecting as soon as a visited name is an ignored directory name.  The source
loop has no other bound, so the embedding carries explicit fuel; `none` means
the loop has not exited within the given fuel (the Python loop diverges when
the root is never reached, since at the top a path is its own parent). -/
def dirWalk (dirs : PySet) (root : PyPath) : Nat → PyPath → Option Bool
  | 0, _ => none
  | fuel + 1, cur =>
    if cur = root then some true
    else if cur.name ∈ dirs then some false
    else dirWalk dirs root fuel cur.parent

/-- `_should_process_file`.  Remote mode checks every part of the relative
path against `ignored_dirs`; local mode runs the parent walk bounded by
`fuel`.  Both then check the base name against `ignored_files` and finally
require the suffix to be an allowed extension. -/
def shouldProcessFile (sc : Scraper) (fuel : Nat) (file_path : String) : Option Bool :=
  if sc.is_remote then
    if (PyPath.ofString file_path).parts.any (fun part => decide (part ∈ sc.ignored_dirs)) then
      some false
    else if (PyPath.ofString file_path).name ∈ sc.ignored_files then some false
    else some (decide ((PyPath.ofString file_path).suffix ∈ sc.file_extensions))
  else
    match dirWalk sc.ignored_dirs (PyPath.ofString sc.repo_path) fuel (PyPath.ofString file_path) with
    | none => none
    | some false => some false
    | some true =>
      if (PyPath.ofString file_path).name ∈ sc.ignored_files then some false
      else some (decide ((PyPath.ofString file_path).suffix ∈ sc.file_extensions))

/-! ## Base64 and UTF-8 decoding (the remote blob payload path) -/

/-- Value of a base64 alphabet character. -/
def b64Val (c : Char) : Option Nat :=
  if 'A' ≤ c ∧ c ≤ 'Z' then some (c.toNat - 65)
  else if 'a' ≤ c ∧ c ≤ 'z' then some (c.toNat - 97 + 26)
  else if '0' ≤ c ∧ c ≤ '9' then some (c.toNat - 48 + 52)
  else if c = '+' then some 62
  else if c = '/' then some 63
  else none

/-- Decode base64 characters in groups of four; `none` models the
`binascii.Error` raised on invalid padding or misplaced `=`. -/
def b64Groups : List Char → Option (List Nat)
  | [] => some []
  | a :: b :: c :: d :: rest =>
    match b64Val a, b64Val b with
    | some va, some vb =>
      if c = '=' then
        if d = '=' ∧ rest = [] then some [va * 4 + vb / 16] else none
      else
        match b64Val c with
        | some vc =>
          if d = '=' then
            if rest = [] then some [va * 4 + vb / 16, (vb % 16) * 16 + vc / 4] else none
          else
            match b64Val d with
            | some vd =>
              (b64Groups rest).map
                (fun tl => (va * 4 + vb / 16) :: ((vb % 16) * 16 + vc / 4) :: ((vc % 4) * 64 + vd) :: tl)
            | none => none
        | none => none
    | _, _ => none
  | _ => none

/-- `base64.b64decode` (permissive mode): characters outside the alphabet and
`=` are discarded, then the groups are decoded; `none` models a raised
decoding exception. -/
def b64decode (s : String) : Option (List Nat) :=
  b64Groups (s.toList.filter (fun c => (b64Val c).isSome || c == '='))

/-- The Unicode replacement character U+FFFD. -/
def replChar : Char := Char.ofNat 0xFFFD

/-- `bytes.decode("utf-8", errors="replace")`: standard UTF-8 decoding where
an invalid or truncated sequence contributes a replacement character instead
of failing.  The first argument is fuel (at least the byte count; every step
consumes at least one byte), keeping the recursion structural. -/
def utf8ReplaceAux : Nat → List Nat → List Char
  | 0, _ => []
  | _, [] => []
  | fuel + 1, b :: rest =>
    if b < 0x80 then Char.ofNat b :: utf8ReplaceAux fuel rest
    else if 0xC2 ≤ b ∧ b ≤ 0xDF then
      match rest with
      | b2 :: rest2 =>
        if 0x80 ≤ b2 ∧ b2 ≤ 0xBF then
          Char.ofNat ((b - 0xC0) * 64 + (b2 - 0x80)) :: utf8ReplaceAux fuel rest2
        else replChar :: utf8ReplaceAux fuel (b2 :: rest2)
      | [] => [replChar]
    else if 0xE0 ≤ b ∧ b ≤ 0xEF then
      match rest with
      | b2 :: b3 :: rest3 =>
        if ((b = 0xE0 ∧ 0xA0 ≤ b2 ∧ b2 ≤ 0xBF) ∨
            (b = 0xED ∧ 0x80 ≤ b2 ∧ b2 ≤ 0x9F) ∨
            (b ≠ 0xE0 ∧ b ≠ 0xED ∧ 0x80 ≤ b2 ∧ b2 ≤ 0xBF)) ∧
           (0x80 ≤ b3 ∧ b3 ≤ 0xBF) then
          Char.ofNat ((b - 0xE0) * 4096 + (b2 - 0x80) * 64 + (b3 - 0x80)) :: utf8ReplaceAux fuel rest3
        else replChar :: utf8ReplaceAux fuel (b2 :: b3 :: rest3)
      | _ => [replChar]
    else if 0xF0 ≤ b ∧ b ≤ 0xF4 then
      match rest with
      | b2 :: b3 :: b4 :: rest4 =>
        if ((b = 0xF0 ∧ 0x90 ≤ b2 ∧ b2 ≤ 0xBF) ∨
            (b = 0xF4 ∧ 0x80 ≤ b2 ∧ b2 ≤ 0x8F) ∨
            (b ≠ 0xF0 ∧ b ≠ 0xF4 ∧ 0x80 ≤ b2 ∧ b2 ≤ 0xBF)) ∧
           (0x80 ≤ b3 ∧ b3 ≤ 0xBF) ∧ (0x80 ≤ b4 ∧ b4 ≤ 0xBF) then
          Char.ofNat ((b - 0xF0) * 262144 + (b2 - 0x80) * 4096 + (b3 - 0x80) * 64 + (b4 - 0x80))
            :: utf8ReplaceAux fuel rest4
        else replChar :: utf8ReplaceAux fuel (b2 :: b3 :: b4 :: rest4)
      | _ => [replChar]
    else replChar :: utf8ReplaceAux fuel rest

/-- UTF-8 decoding with replacement. -/
def utf8Replace (bs : List Nat) : List Char :=
  utf8ReplaceAux bs.length bs

/-- UTF-8 decoding with replacement, as a string. -/
def utf8ReplaceStr (bs : List Nat) : String :=
  String.mk (utf8Replace bs)

/-! ## Remote backend -/

/-- One entry of the `tree` array returned by the listing endpoint. -/
structure TreeItem where
  itemType : String
  path : String
  url : String
deriving DecidableEq, Repr

/-- The listing response: HTTP status and the `tree` array. -/
structure TreeResp where
  status_code : Nat
  tree : List TreeItem
deriving DecidableEq, Repr

/-- A blob response: HTTP status, `content` string, and `encoding` marker
(`json.get("encoding", "")` gives `""` when the field is absent). -/
structure BlobResp where
  status_code : Nat
  content : String
  encoding : String
deriving DecidableEq, Repr

/-- The content the scrape loop stores for a fetched blob: base64 payloads are
decoded and interpreted as UTF-8 with replacement (`none` when `b64decode`
raises); any other encoding marker stores the `content` field verbatim. -/
def decodeBlob (resp : BlobResp) : Option String :=
  if resp.encoding = "base64" then
    match b64decode resp.content with
    | some bytes => some (utf8ReplaceStr bytes)
    | none => none
  else some resp.content

/-- Python `dict` assignment `d[k] = v`: update in place when the key exists
(its position is kept), otherwise append. -/
def dictInsert (k v : String) (d : List (String × String)) : List (String × String) :=
  if d.any (fun kv => kv.1 == k) then
    d.map (fun kv => if kv.1 = k then (k, v) else kv)
  else d ++ [(k, v)]

/-- The keys of an association-list dictionary, in order. -/
def dictKeys (d : List (String × String)) : List String :=
  d.map Prod.fst

/-- The body of the per-item loop in `scrape_remote_repository`: only `blob`
entries that pass `_should_process_file` are fetched; a non-200 blob response
or a decode failure leaves the dictionary unchanged. -/
def stepItem (sc : Scraper) (fetchBlob : String → BlobResp) (item : TreeItem)
    (acc : List (String × String)) : List (String × String) :=
  if item.itemType = "blob" then
    if shouldProcessFile sc 0 item.path = some true then
      let resp := fetchBlob item.url
      if resp.status_code = 200 then
        match decodeBlob resp with
        | some content => dictInsert item.path content acc
        | none => acc
      else acc
    else acc
  else acc

/-- The per-item loop of `scrape_remote_repository`. -/
def processTree (sc : Scraper) (fetchBlob : String → BlobResp) :
    List TreeItem → List (String × String) → List (String × String)
  | [], acc => acc
  | item :: rest, acc => processTree sc fetchBlob rest (stepItem sc fetchBlob item acc)

/-- `scrape_remote_repository`, with the two network effects passed in: the
listing response and the per-URL blob responses.  A non-200 listing response
aborts with an empty dictionary. -/
def scrape_remote_repository (sc : Scraper) (treeResp : TreeResp)
    (fetchBlob : String → BlobResp) : List (String × String) :=
  if treeResp.status_code ≠ 200 then []
  else processTree sc fetchBlob treeResp.tree []

/-! ## Local backend -/

/-- `get_file_content`: a read that raises is caught and yields `""`. -/
def get_file_content (fs : String → Except Unit String) (file_path : String) : String :=
  match fs file_path with
  | Except.ok s => s
  | Except.error _ => ""

/-- `os.path.join(a, b)` for POSIX paths. -/
def osJoin (a b : String) : String :=
  if strStartsWith b "/" then b
  else if a = "" then b
  else if strEndsWith a "/" then a ++ b
  else a ++ "/" ++ b

/-- Length of the common leading run of two segment lists. -/
def commonLen : List String → List String → Nat
  | a :: as2, b :: bs =>
    if a = b then commonLen as2 bs + 1 else 0
  | _, _ => 0

/-- `os.path.relpath(path, start)` on POSIX paths: compare normalized
segments, climb with `..` for the untaken tail of `start`, then descend. -/
def osRelpath (path start : String) : String :=
  let pl := pathSegs path
  let sl := pathSegs start
  let k := commonLen pl sl
  let rel := List.replicate (sl.length - k) ".." ++ pl.drop k
  if rel.isEmpty then "." else pyJoinStr "/" rel

/-- The body of the per-file loop in the local branch of `scrape_repository`:
files passing the filter are read; a read that raised (yielding `""`) or a
legitimately empty file is skipped by the `if content:` truthiness test. -/
def stepFile (sc : Scraper) (fuel : Nat) (fs : String → Except Unit String)
    (root : String) (f : String) (acc : List (String × String)) : List (String × String) :=
  if shouldProcessFile sc fuel (osJoin root f) = some true then
    if get_file_content fs (osJoin root f) ≠ "" then
      dictInsert (osRelpath (osJoin root f) sc.repo_path) (get_file_content fs (osJoin root f)) acc
    else acc
  else acc

/-- The inner `for file in files` loop. -/
def processFiles (sc : Scraper) (fuel : Nat) (fs : String → Except Unit String)
    (root : String) : List String → List (String × String) → List (String × String)
  | [], acc => acc
  | f :: rest, acc => processFiles sc fuel fs root rest (stepFile sc fuel fs root f acc)

/-- The outer `for root, _, files in os.walk(...)` loop; the walk itself is an
explicit oracle listing each visited directory with its files. -/
def processWalk (sc : Scraper) (fuel : Nat) (fs : String → Except Unit String) :
    List (String × List String) → List (String × String) → List (String × String)
  | [], acc => acc
  | (root, files) :: rest, acc =>
    processWalk sc fuel fs rest (processFiles sc fuel fs root files acc)

/-- `scrape_repository`: remote delegates to the remote backend; local first
requires a successful `connect_to_repo` (the `connected` oracle), then walks
the tree. -/
def scrape_repository (sc : Scraper) (fuel : Nat) (connected : Bool)
    (treeResp : TreeResp) (fetchBlob : String → BlobResp)
    (walk : List (String × List String)) (fs : String → Except Unit String) :
    List (String × String) :=
  if sc.is_remote then scrape_remote_repository sc treeResp fetchBlob
  else if !connected then []
  else processWalk sc fuel fs walk []

/-! ## Aggregator -/

/-- The four formatted pieces `format_for_llm` appends for one file. -/
def blockOf (kv : String × String) : List String :=
  ["\n### File: " ++ kv.1,
   "```" ++ strDrop (PyPath.ofString kv.1).suffix 1,
   kv.2,
   "```\n"]

/-- `format_for_llm`: extend the list with the four pieces per entry, then
join everything with newlines. -/
def format_for_llm (code_contents : List (String × String)) : String :=
  pyJoinStr "\n" (code_contents.flatMap blockOf)

/-- Substring containment on strings, phrased over the character lists. -/
def strContains (hay sub : String) : Prop :=
  ∃ pre post : List Char, hay.toList = pre ++ sub.toList ++ post

/-! ## Claim-side vocabulary -/

/-- `root` is the candidate or one of the path values the parent walk visits:
its parts are an initial run of the candidate's parts, excluding the one
degenerate combination (relative empty root against an absolute candidate)
where the walk bottoms out at `/` without ever equalling the root. -/
def ancestorOf (root p : PyPath) : Prop :=
  root.parts.isPrefixOf p.parts = true ∧ ¬(root.parts = [] ∧ p.isAbs = true)

/-- A tree entry whose blob ends up in the remote scrape result: a `blob`
typed entry passing the filter whose fetch returns 200 and whose payload
decodes. -/
def goodItem (sc : Scraper) (fetchBlob : String → BlobResp) (item : TreeItem) : Prop :=
  item.itemType = "blob" ∧ shouldProcessFile sc 0 item.path = some true ∧
  (fetchBlob item.url).status_code = 200 ∧ (decodeBlob (fetchBlob item.url)).isSome = true

/-- The `ignored_files` field of a construction outcome (empty on failure). -/
def scrFiles (e : Except String Scraper) : PySet :=
  match e with
  | Except.ok sc => sc.ignored_files
  | Except.error _ => []

/-- The `ignored_dirs` field of a construction outcome (empty on failure). -/
def scrDirs (e : Except String Scraper) : PySet :=
  match e with
  | Except.ok sc => sc.ignored_dirs
  | Except.error _ => []

/-- Number of non-empty pieces of a split (the claim's "segments after
discarding empty segments"). -/
def countNE (ls : List (List Char)) : Nat :=
  (ls.filter (fun l => !l.isEmpty)).length

/-- The text one file contributes to the aggregate output: a header line with
the path, a fence line tagged with the extension minus its dot, the content
verbatim, and a closing fence, all newline-joined. -/
def subOf (p c : String) : String :=
  "\n### File: " ++ p ++ "\n" ++ ("```" ++ strDrop (PyPath.ofString p).suffix 1) ++ "\n" ++
    c ++ "\n" ++ "```\n"

/-- A concrete remote-mode scraper used in witnesses. -/
def sampleRemoteSc : Scraper :=
  { repo_path := "https://host/owner/project"
    default_ignored_dirs := defaultIgnoredDirs
    ignored_dirs := defaultIgnoredDirs
    file_extensions := defaultFileExtensions
    ignored_files := []
    token := none
    branch := "main"
    is_remote := true
    remote_owner := "owner"
    remote_repo := "project" }

/-- A concrete local-mode scraper used in witnesses. -/
def sampleLocalSc : Scraper :=
  { sampleRemoteSc with
    repo_path := "/repo"
    is_remote := false
    remote_owner := ""
    remote_repo := "" }

/-- A one-file listing response used in witnesses. -/
def sampleTree : TreeResp := ⟨200, [⟨"blob", "a.py", "u1"⟩]⟩

/-- A failed listing response used in witnesses. -/
def sampleTree404 : TreeResp := ⟨404, [⟨"blob", "a.py", "u1"⟩]⟩

/-- Blob oracle answering a base64 `"hello"` payload. -/
def sampleFetchHello : String → BlobResp := fun _ => ⟨200, "aGVsbG8=", "base64"⟩

/-- Blob oracle answering a base64 payload of the single byte `0xFF`. -/
def sampleFetchFF : String → BlobResp := fun _ => ⟨200, "/w==", "base64"⟩

/-- A concrete read oracle used in witnesses. -/
def sampleFs : String → Except Unit String := fun _ => Except.ok "code"

/-- Whether construction succeeded. -/
def scrIsOk (e : Except String Scraper) : Bool :=
  match e with
  | Except.ok _ => true
  | Except.error _ => false

/-- The `remote_owner` of a construction outcome (`""` on failure). -/
def scrOwner (e : Except String Scraper) : String :=
  match e with
  | Except.ok sc => sc.remote_owner
  | Except.error _ => ""

/-- The `remote_repo` of a construction outcome (`""` on failure). -/
def scrRepo (e : Except String Scraper) : String :=
  match e with
  | Except.ok sc => sc.remote_repo
  | Except.error _ => ""

/-- The `is_remote` flag of a construction outcome (`true` on failure, so a
`false` answer also certifies success). -/
def scrIsRemote (e : Except String Scraper) : Bool :=
  match e with
  | Except.ok sc => sc.is_remote
  | Except.error _ => true

/-- The `repo_path` of a construction outcome (`""` on failure). -/
def scrRepoPath (e : Except String Scraper) : String :=
  match e with
  | Except.ok sc => sc.repo_path
  | Except.error _ => ""

/-! ## Lemmas: ignore configuration -/

theorem pySetInsert_subset (x : String) (s : PySet) : pySubset s (pySetInsert x s) := by
  intro a ha
  unfold pySetInsert
  split
  · exact ha
  · exact List.mem_append_left _ ha

theorem pySubset_refl (s : PySet) : pySubset s s := fun _ h => h

theorem pySubset_trans {a b c : PySet} (h1 : pySubset a b) (h2 : pySubset b c) :
    pySubset a c := fun x hx => h2 x (h1 x hx)

theorem parseIgnoreLine_files_mono (st : IgnoreSt × IgnSection) (l : String) :
    pySubset st.1.ignored_files (parseIgnoreLine st l).1.ignored_files := by
  obtain ⟨ig, sect⟩ := st
  unfold parseIgnoreLine parseIgnoreLineCore
  split_ifs
  · exact pySubset_refl _
  · exact pySubset_refl _
  · exact pySubset_refl _
  · cases sect
    · exact pySubset_refl _
    · exact pySetInsert_subset _ _
    · exact pySubset_refl _

theorem foldl_parseIgnoreLine_files_mono :
    ∀ (lines : List String) (st : IgnoreSt × IgnSection),
      pySubset st.1.ignored_files (List.foldl parseIgnoreLine st lines).1.ignored_files
  | [], _ => pySubset_refl _
  | l :: ls, st =>
    pySubset_trans (parseIgnoreLine_files_mono st l)
      (foldl_parseIgnoreLine_files_mono ls (parseIgnoreLine st l))

/-- C8: a missing ignore file leaves both rule sets exactly as they were, and
any other read error likewise leaves the rule set in the state parsing had
reached (the read fails before any line is interpreted); in both cases the
loader returns normally instead of raising, so construction with such an
ignore file equals construction without one. -/
theorem claim8_ignore_load_nonfatal :
    (∀ sc : Scraper, load_ignore_file sc ReadOutcome.notFound = sc)
    ∧ (∀ sc : Scraper, load_ignore_file sc ReadOutcome.otherError = sc)
    ∧ (∀ rp ids fes tok br, mkScraper rp ids fes (some ReadOutcome.notFound) tok br =
        mkScraper rp ids fes none tok br)
    ∧ (∀ rp ids fes tok br, mkScraper rp ids fes (some ReadOutcome.otherError) tok br =
        mkScraper rp ids fes none tok br) := by
  refine ⟨fun _ => rfl, fun _ => rfl, fun rp ids fes tok br => ?_, fun rp ids fes tok br => ?_⟩
  all_goals
    unfold mkScraper
    cases mkScraperRaw rp ids fes tok br <;> rfl

/-- C7: the four-line configuration yields exactly `{"secret.py"}` as ignored
file names and adds `"build"` to the ignored directory names; blank lines and
`#`-comment lines leave the parser state untouched; and a content line seen
before any section header is silently discarded. -/
theorem claim7_ignore_config_parse :
    (scrFiles (mkScraper "/repo" none none
        (some (ReadOutcome.ok "[files]\nsecret.py\n[directories]\nbuild")) none "main")
      = ["secret.py"]
    ∧ "build" ∈ scrDirs (mkScraper "/repo" none none
        (some (ReadOutcome.ok "[files]\nsecret.py\n[directories]\nbuild")) none "main"))
    ∧ (∀ (st : IgnoreSt × IgnSection) (l : String),
        pyStripWS l = "" ∨ strStartsWith (pyStripWS l) "#" = true →
        parseIgnoreLine st l = st)
    ∧ (∀ (ig : IgnoreSt) (l : String),
        pyStripWS l ≠ "" → strStartsWith (pyStripWS l) "#" = false →
        pyStripWS l ≠ "[files]" → pyStripWS l ≠ "[directories]" →
        parseIgnoreLine (ig, IgnSection.noneS) l = (ig, IgnSection.noneS)) := by
  refine ⟨⟨by decide, by decide⟩, fun st l h => ?_, fun ig l h1 h2 h3 h4 => ?_⟩
  · unfold parseIgnoreLine parseIgnoreLineCore
    rw [if_pos h]
  · unfold parseIgnoreLine parseIgnoreLineCore
    rw [if_neg (by simp [h1, h2]), if_neg h3, if_neg h4]

/-- Witness for the hypothesised parts of C7 at concrete lines. -/
theorem claim7_witness :
    parseIgnoreLine (⟨[], defaultIgnoredDirs⟩, IgnSection.noneS) "   " =
      (⟨[], defaultIgnoredDirs⟩, IgnSection.noneS)
    ∧ parseIgnoreLine (⟨[], defaultIgnoredDirs⟩, IgnSection.noneS) "# note" =
      (⟨[], defaultIgnoredDirs⟩, IgnSection.noneS)
    ∧ parseIgnoreLine (⟨[], defaultIgnoredDirs⟩, IgnSection.noneS) "stray.py" =
      (⟨[], defaultIgnoredDirs⟩, IgnSection.noneS) :=
  ⟨claim7_ignore_config_parse.2.1 _ _ (Or.inl (by decide)),
   claim7_ignore_config_parse.2.1 _ _ (Or.inr (by decide)),
   claim7_ignore_config_parse.2.2 _ _ (by decide) (by decide) (by decide) (by decide)⟩

/-- Counterexample to C9 as stated: a caller-supplied empty directory set does
not govern filtering — Python's `or` treats the empty set as falsy, so the
built-in defaults are installed instead. -/
theorem claim9_counterexample :
    scrDirs (mkScraper "/repo" (some ([] : PySet)) none none none "main")
      = defaultIgnoredDirs
    ∧ "venv" ∈ scrDirs (mkScraper "/repo" (some ([] : PySet)) none none none "main")
    ∧ ([] : PySet) ≠ defaultIgnoredDirs := by
  refine ⟨by decide, by decide, by decide⟩

/-- C9 (amended): the built-in defaults are present when the caller supplies
no directory set or an explicitly empty one (falsy in Python); a supplied
non-empty set replaces the defaults and alone governs filtering; and the
ignored-file-name set starts empty at construction and only ever grows during
configuration parsing. -/
theorem claim9_defaults_and_overrides :
    (∀ rp fes tok br, strStartsWith rp "http://" = false → strStartsWith rp "https://" = false →
        scrDirs (mkScraper rp none fes none tok br) = defaultIgnoredDirs
        ∧ scrFiles (mkScraper rp none fes none tok br) = ∅)
    ∧ (∀ rp fes tok br (s : PySet), s ≠ [] →
        strStartsWith rp "http://" = false → strStartsWith rp "https://" = false →
        scrDirs (mkScraper rp (some s) fes none tok br) = s)
    ∧ (∀ rp fes tok br,
        strStartsWith rp "http://" = false → strStartsWith rp "https://" = false →
        scrDirs (mkScraper rp (some ([] : PySet)) fes none tok br) = defaultIgnoredDirs)
    ∧ (∀ (st : IgnoreSt) (lines : List String),
        pySubset st.ignored_files (parseIgnoreLines st lines).ignored_files) := by
  refine ⟨fun rp fes tok br h1 h2 => ?_, fun rp fes tok br s hs h1 h2 => ?_,
    fun rp fes tok br h1 h2 => ?_, fun st lines => ?_⟩
  · constructor <;> simp [mkScraper, mkScraperRaw, h1, h2, scrDirs, scrFiles, pyOrSet]
  · simp [mkScraper, mkScraperRaw, h1, h2, scrDirs, pyOrSet, hs]
  · simp [mkScraper, mkScraperRaw, h1, h2, scrDirs, pyOrSet]
  · exact foldl_parseIgnoreLine_files_mono lines (st, IgnSection.noneS)

/-- Witness for C9's amended statement at concrete arguments. -/
theorem claim9_witness :
    scrDirs (mkScraper "/repo" none none none none "main") = defaultIgnoredDirs
    ∧ scrDirs (mkScraper "/repo" (some ["x"]) none none none "main") = ["x"]
    ∧ scrDirs (mkScraper "/repo" (some ([] : PySet)) none none none "main")
        = defaultIgnoredDirs :=
  ⟨(claim9_defaults_and_overrides.1 "/repo" none none "main" (by decide) (by decide)).1,
   claim9_defaults_and_overrides.2.1 "/repo" none none "main" ["x"] (by decide)
     (by decide) (by decide),
   claim9_defaults_and_overrides.2.2.1 "/repo" none none "main" (by decide) (by decide)⟩

/-- C5: a blob with the `base64` encoding marker is stored as the decoded
bytes read as UTF-8 with replacement characters (undecodable bytes do not
fail the file); the payload `"aGVsbG8="` decodes to exactly `"hello"`; and a
blob whose marker is absent (`""`) or anything else stores the `content`
field verbatim. -/
theorem claim5_blob_decoding :
    (∀ (r : BlobResp) (bs : List Nat), r.encoding = "base64" →
        b64decode r.content = some bs → decodeBlob r = some (utf8ReplaceStr bs))
    ∧ (∀ r : BlobResp, r.encoding ≠ "base64" → decodeBlob r = some r.content)
    ∧ decodeBlob ⟨200, "aGVsbG8=", "base64"⟩ = some "hello"
    ∧ scrape_remote_repository sampleRemoteSc sampleTree sampleFetchHello = [("a.py", "hello")]
    ∧ decodeBlob ⟨200, "/w==", "base64"⟩ = some (String.mk [replChar])
    ∧ scrape_remote_repository sampleRemoteSc sampleTree sampleFetchFF
        = [("a.py", String.mk [replChar])] := by
  refine ⟨fun r bs he hb => ?_, fun r he => ?_, by decide, by decide, by decide, by decide⟩
  · simp [decodeBlob, he, hb]
  · simp [decodeBlob, he]

/-! ## Lemmas: splitting and stripping (locator parsing) -/

theorem splitOnChar_ne_nil (c : Char) : ∀ cs : List Char, splitOnChar c cs ≠ []
  | [] => by simp [splitOnChar]
  | x :: xs => by
    unfold splitOnChar
    split
    · simp
    · cases h : splitOnChar c xs with
      | nil => simp
      | cons a t => simp [h]

theorem splitOnChar_cons_sep (c : Char) (cs : List Char) :
    splitOnChar c (c :: cs) = [] :: splitOnChar c cs := by
  simp [splitOnChar]

theorem countNE_cons_sep (c : Char) (cs : List Char) :
    countNE (splitOnChar c (c :: cs)) = countNE (splitOnChar c cs) := by
  rw [splitOnChar_cons_sep]
  simp [countNE]

theorem countNE_lstrip :
    ∀ (c : Char) (cs : List Char),
      countNE (splitOnChar c (lstripChar c cs)) = countNE (splitOnChar c cs)
  | _, [] => rfl
  | c, x :: xs => by
    unfold lstripChar
    by_cases hx : x = c
    · subst hx
      rw [List.dropWhile_cons_of_pos (by simp), countNE_cons_sep]
      exact countNE_lstrip x xs
    · rw [List.dropWhile_cons_of_neg (by simp [hx])]

theorem splitOnChar_concat_sep :
    ∀ (c : Char) (ds : List Char), splitOnChar c (ds ++ [c]) = splitOnChar c ds ++ [[]]
  | c, [] => by simp [splitOnChar]
  | c, x :: xs => by
    rw [List.cons_append]
    unfold splitOnChar
    rw [splitOnChar_concat_sep c xs]
    split
    · rfl
    · cases h : splitOnChar c xs with
      | nil => exact absurd h (splitOnChar_ne_nil c xs)
      | cons a t => simp

theorem countNE_append_replicate (c : Char) :
    ∀ (n : Nat) (ds : List Char),
      countNE (splitOnChar c (ds ++ List.replicate n c)) = countNE (splitOnChar c ds)
  | 0, _ => by simp
  | n + 1, ds => by
    have : ds ++ List.replicate (n + 1) c = (ds ++ [c]) ++ List.replicate n c := by
      simp [List.replicate_succ]
    rw [this, countNE_append_replicate c n (ds ++ [c]), splitOnChar_concat_sep]
    simp [countNE]

theorem rstripChar_decomp (c : Char) (l : List Char) :
    ∃ n : Nat, l = rstripChar c l ++ List.replicate n c := by
  have h := List.takeWhile_append_dropWhile (fun x => x == c) l.reverse
  have hl : l = (List.dropWhile (fun x => x == c) l.reverse).reverse ++
      (List.takeWhile (fun x => x == c) l.reverse).reverse := by
    have := congrArg List.reverse h
    rw [List.reverse_append, List.reverse_reverse] at this
    exact this.symm
  have hall : ∀ x ∈ (List.takeWhile (fun y => y == c) l.reverse).reverse, x = c := by
    intro x hx
    have hx2 : x ∈ List.takeWhile (fun y => y == c) l.reverse := List.mem_reverse.mp hx
    have hx3 := @List.mem_takeWhile_imp Char (fun y => y == c) l.reverse x hx2
    simpa using hx3
  refine ⟨(List.takeWhile (fun x => x == c) l.reverse).reverse.length, ?_⟩
  rw [← List.eq_replicate_of_mem hall]
  exact hl

theorem countNE_strip (c : Char) (cs : List Char) :
    countNE (splitOnChar c (stripChar c cs)) = countNE (splitOnChar c cs) := by
  unfold stripChar
  obtain ⟨n, hn⟩ := rstripChar_decomp c (lstripChar c cs)
  calc countNE (splitOnChar c (rstripChar c (lstripChar c cs)))
      = countNE (splitOnChar c (rstripChar c (lstripChar c cs) ++ List.replicate n c)) :=
        (countNE_append_replicate c n _).symm
    _ = countNE (splitOnChar c (lstripChar c cs)) := by rw [← hn]
    _ = countNE (splitOnChar c cs) := countNE_lstrip c cs

theorem head?_dropWhile_ne (p : Char → Bool) (m : List Char) (x : Char)
    (hx : (List.dropWhile p m).head? = some x) : p x = false := by
  have hne : List.dropWhile p m ≠ [] := by
    intro h0
    rw [h0] at hx
    cases hx
  have hh := List.head?_eq_head hne
  rw [hh] at hx
  have hxeq : (List.dropWhile p m).head hne = x := by
    injection hx
  rw [← hxeq]
  exact Bool.eq_false_iff.mpr (by simpa using List.head_dropWhile_not p m hne)

theorem stripChar_getLast_ne (c : Char) (cs : List Char) (x : Char)
    (hx : (stripChar c cs).getLast? = some x) : x ≠ c := by
  unfold stripChar rstripChar at hx
  rw [List.getLast?_reverse] at hx
  have := head?_dropWhile_ne (fun y => y == c) (lstripChar c cs).reverse x hx
  simpa using this

theorem stripChar_head_ne (c : Char) (cs : List Char) (x : Char)
    (hx : (stripChar c cs).head? = some x) : x ≠ c := by
  unfold stripChar rstripChar at hx
  rw [List.head?_reverse] at hx
  obtain ⟨s, hs⟩ := List.dropWhile_suffix (l := (lstripChar c cs).reverse) (fun y => y == c)
  have htne : List.dropWhile (fun y => y == c) (lstripChar c cs).reverse ≠ [] := by
    intro h0
    rw [h0] at hx
    cases hx
  have hrev : ((lstripChar c cs).reverse).getLast? = some x := by
    rw [← hs, List.getLast?_append]
    rw [hx]
    rfl
  rw [List.getLast?_reverse] at hrev
  have := head?_dropWhile_ne (fun y => y == c) cs x hrev
  simpa using this

theorem split_head_cons (c x : Char) (xs : List Char) (hx : ¬x = c) :
    ∃ h t, splitOnChar c (x :: xs) = (x :: h) :: t := by
  cases hsp : splitOnChar c xs with
  | nil => exact absurd hsp (splitOnChar_ne_nil c xs)
  | cons a t =>
    refine ⟨a, t, ?_⟩
    unfold splitOnChar
    rw [if_neg hx, hsp]

theorem splitOnChar_concat_nonsep (c x : Char) (hx : ¬x = c) :
    ∀ l : List Char, ∃ L lst, splitOnChar c l = L ++ [lst]
      ∧ splitOnChar c (l ++ [x]) = L ++ [lst ++ [x]]
  | [] => by
    refine ⟨[], [], by simp [splitOnChar], ?_⟩
    simp [splitOnChar, hx]
  | y :: l => by
    obtain ⟨L, lst, h1, h2⟩ := splitOnChar_concat_nonsep c x hx l
    by_cases hy : y = c
    · subst hy
      rw [splitOnChar_cons_sep, List.cons_append, splitOnChar_cons_sep, h1, h2]
      exact ⟨[] :: L, lst, rfl, rfl⟩
    · cases hL : L with
      | nil =>
        rw [hL] at h1 h2
        simp only [List.nil_append] at h1 h2
        refine ⟨[], y :: lst, ?_, ?_⟩
        · unfold splitOnChar
          rw [if_neg hy, h1]
          rfl
        · rw [List.cons_append]
          unfold splitOnChar
          rw [if_neg hy, h2]
          rfl
      | cons L0 L' =>
        rw [hL] at h1 h2
        refine ⟨(y :: L0) :: L', lst, ?_, ?_⟩
        · unfold splitOnChar
          rw [if_neg hy, h1]
          rfl
        · rw [List.cons_append]
          unfold splitOnChar
          rw [if_neg hy, h2]
          rfl

theorem two_le_countNE_of_stripped (c : Char) (ds : List Char)
    (hh : ∀ x, ds.head? = some x → x ≠ c)
    (hl : ∀ x, ds.getLast? = some x → x ≠ c)
    (hlen : 2 ≤ (splitOnChar c ds).length) :
    2 ≤ countNE (splitOnChar c ds) := by
  cases hds : ds with
  | nil =>
    rw [hds] at hlen
    simp [splitOnChar] at hlen
  | cons x xs =>
    have hx : ¬x = c := hh x (by rw [hds]; rfl)
    obtain ⟨h, t, hsplit⟩ := split_head_cons c x xs hx
    rcases List.eq_nil_or_concat' ds with hnil | ⟨l', a, hconc⟩
    · rw [hnil] at hds; cases hds
    · have ha : ¬a = c := by
        refine hl a ?_
        rw [hconc]
        exact List.getLast?_concat l'
      obtain ⟨L, lst, _, hsplit2⟩ := splitOnChar_concat_nonsep c a ha l'
      rw [← hconc] at hsplit2
      -- the split both starts with the nonempty (x :: h) and ends with the
      -- nonempty (lst ++ [a])
      rw [hds] at hsplit2
      rw [hsplit] at hsplit2 ⊢
      cases hL : L with
      | nil =>
        rw [hL] at hsplit2
        simp only [List.nil_append] at hsplit2
        -- then the split is a single piece, contradicting hlen
        rw [hds, hsplit] at hlen
        rw [hsplit2] at hlen
        simp at hlen
      | cons L0 L' =>
        rw [hL] at hsplit2
        have ht : t = L' ++ [lst ++ [a]] := by
          have := hsplit2
          rw [List.cons_append] at this
          injection this with h1 h2
        rw [ht]
        unfold countNE
        rw [List.filter_cons_of_pos (by simp), List.filter_append,
          List.filter_cons_of_pos (by simp)]
        simp

theorem claim2_count_lemma (c : Char) (cs : List Char)
    (hcount : countNE (splitOnChar c cs) < 2) :
    (splitOnChar c (stripChar c cs)).length < 2 := by
  by_contra hlen
  push_neg at hlen
  have h2 : 2 ≤ countNE (splitOnChar c (stripChar c cs)) :=
    two_le_countNE_of_stripped c (stripChar c cs)
      (fun x hx => stripChar_head_ne c cs x hx)
      (fun x hx => stripChar_getLast_ne c cs x hx)
      hlen
  rw [countNE_strip] at h2
  omega

/-- C2: constructing a scraper from an `http://` or `https://` reference
whose URL path has fewer than two non-empty `/`-separated segments raises at
construction time; the reference `"https://host/owner/project"` succeeds with
owner `"owner"` and project `"project"`; and any reference not starting with
`http://` or `https://` is taken verbatim as a local filesystem root and
never fails this check. -/
theorem claim2_locator :
    (∀ (ref : String) (ids fes : Option PySet) (tok : Option String) (br : String),
        (strStartsWith ref "http://" || strStartsWith ref "https://") = true →
        countNE (splitOnChar '/' (urlPathOf ref)) < 2 →
        scrIsOk (mkScraper ref ids fes none tok br) = false)
    ∧ (scrIsOk (mkScraper "https://host/owner/project" none none none none "main") = true
      ∧ scrOwner (mkScraper "https://host/owner/project" none none none none "main") = "owner"
      ∧ scrRepo (mkScraper "https://host/owner/project" none none none none "main") = "project")
    ∧ (∀ (ref : String) (ids fes : Option PySet) (ign : Option ReadOutcome)
        (tok : Option String) (br : String),
        strStartsWith ref "http://" = false → strStartsWith ref "https://" = false →
        scrIsOk (mkScraper ref ids fes ign tok br) = true
        ∧ scrIsRemote (mkScraper ref ids fes ign tok br) = false
        ∧ scrRepoPath (mkScraper ref ids fes ign tok br) = ref) := by
  refine ⟨?_, ⟨by decide, by decide, by decide⟩, ?_⟩
  · intro ref ids fes tok br hurl hcount
    have hlen : ((splitOnChar '/' (stripChar '/' (urlPathOf ref))).map
        (fun l => String.mk l)).length < 2 := by
      rw [List.length_map]
      exact claim2_count_lemma '/' (urlPathOf ref) hcount
    unfold mkScraper mkScraperRaw
    simp only [hurl, if_true]
    rw [if_pos hlen]
    rfl
  · intro ref ids fes ign tok br h1 h2
    unfold mkScraper mkScraperRaw
    simp only [h1, h2, Bool.or_self, if_false]
    cases ign with
    | none => exact ⟨rfl, rfl, rfl⟩
    | some oc =>
      cases oc with
      | ok content => exact ⟨rfl, rfl, rfl⟩
      | notFound => exact ⟨rfl, rfl, rfl⟩
      | otherError => exact ⟨rfl, rfl, rfl⟩

/-- Witness for C2 at concrete references: one path segment fails, a local
path succeeds verbatim. -/
theorem claim2_witness :
    scrIsOk (mkScraper "https://host/owner" none none none none "main") = false
    ∧ scrIsOk (mkScraper "/a/b" none none (some ReadOutcome.notFound) none "main") = true
    ∧ scrIsRemote (mkScraper "/a/b" none none (some ReadOutcome.notFound) none "main") = false
    ∧ scrRepoPath (mkScraper "/a/b" none none (some ReadOutcome.notFound) none "main")
        = "/a/b" :=
  ⟨claim2_locator.1 "https://host/owner" none none none "main" (by decide) (by decide),
   (claim2_locator.2.2 "/a/b" none none (some ReadOutcome.notFound) none "main"
      (by decide) (by decide)).1,
   (claim2_locator.2.2 "/a/b" none none (some ReadOutcome.notFound) none "main"
      (by decide) (by decide)).2.1,
   (claim2_locator.2.2 "/a/b" none none (some ReadOutcome.notFound) none "main"
      (by decide) (by decide)).2.2⟩

/-! ## Lemmas: paths and the parent walk -/

theorem splitOnChar_not_mem (c : Char) :
    ∀ (cs : List Char) (piece : List Char), piece ∈ splitOnChar c cs → c ∉ piece
  | [], piece => by
    intro hp
    simp [splitOnChar] at hp
    simp [hp]
  | x :: xs, piece => by
    intro hp
    unfold splitOnChar at hp
    by_cases hx : x = c
    · rw [if_pos hx] at hp
      rcases List.mem_cons.mp hp with rfl | hmem
      · simp
      · exact splitOnChar_not_mem c xs piece hmem
    · rw [if_neg hx] at hp
      cases hsp : splitOnChar c xs with
      | nil => exact absurd hsp (splitOnChar_ne_nil c xs)
      | cons a t =>
        rw [hsp] at hp
        rcases List.mem_cons.mp hp with rfl | hmem
        · intro hc
          rcases List.mem_cons.mp hc with rfl | hmem2
          · exact hx rfl
          · exact splitOnChar_not_mem c xs a (hsp ▸ List.mem_cons_self ..) hmem2
        · exact splitOnChar_not_mem c xs piece (hsp ▸ List.mem_cons_of_mem _ hmem)

theorem pathSegs_ne_slash (s : String) : ∀ t ∈ pathSegs s, t ≠ "/" := by
  intro t ht
  unfold pathSegs at ht
  obtain ⟨htm, -⟩ := List.mem_filter.mp ht
  obtain ⟨piece, hpiece, hmk⟩ := List.mem_map.mp htm
  intro hslash
  have hp : piece = ['/'] := by
    have := congrArg String.toList hmk
    rw [hslash] at this
    exact this
  exact splitOnChar_not_mem '/' s.toList piece hpiece (hp ▸ List.mem_singleton.mpr rfl)

theorem ofString_parts_cases (s : String) :
    (PyPath.ofString s).parts = "/" :: pathSegs s ∨ (PyPath.ofString s).parts = pathSegs s := by
  unfold PyPath.ofString
  split
  · exact Or.inl rfl
  · exact Or.inr rfl

theorem ofString_drop_ne_slash (s : String) (k : Nat) (hk : 1 ≤ k) :
    ∀ t ∈ (PyPath.ofString s).parts.drop k, t ≠ "/" := by
  intro t ht
  rcases ofString_parts_cases s with habs | hrel
  · rw [habs] at ht
    obtain ⟨k', rfl⟩ : ∃ k', k = k' + 1 := ⟨k - 1, by omega⟩
    rw [List.drop_succ_cons] at ht
    exact pathSegs_ne_slash s t (List.drop_subset _ _ ht)
  · rw [hrel] at ht
    exact pathSegs_ne_slash s t (List.drop_subset _ _ ht)

theorem ofString_not_abs_ne_slash (s : String) (h : (PyPath.ofString s).isAbs = false) :
    ∀ t ∈ (PyPath.ofString s).parts, t ≠ "/" := by
  intro t ht
  rcases ofString_parts_cases s with habs | hrel
  · exfalso
    unfold PyPath.isAbs at h
    rw [habs] at h
    simp at h
  · rw [hrel] at ht
    exact pathSegs_ne_slash s t ht

theorem isPrefixOf_append_drop :
    ∀ (a b : List String), a.isPrefixOf b = true → b = a ++ b.drop a.length
  | [], b, _ => by simp
  | x :: xs, [], h => by simp [List.isPrefixOf] at h
  | x :: xs, y :: ys, h => by
    simp only [List.isPrefixOf, Bool.and_eq_true, beq_iff_eq] at h
    obtain ⟨rfl, htail⟩ := h
    have ih := isPrefixOf_append_drop xs ys htail
    simp only [List.length_cons, List.drop_succ_cons, List.cons_append]
    congr 1

/-- The parent walk computed on a path whose parts extend the root's by the
run `σ` of names: it terminates and answers whether none of the names in `σ`
is an ignored directory name. -/
theorem dirWalk_eq (dirs : PySet) (root : PyPath) (σ : List String) :
    (∀ t ∈ σ, t ≠ "/") →
    ∀ (fuel : Nat), σ.length < fuel →
    ∀ (cur : PyPath), cur.parts = root.parts ++ σ →
    dirWalk dirs root fuel cur = some (decide (∀ t ∈ σ, t ∉ dirs)) := by
  induction σ using List.reverseRecOn with
  | nil =>
    intro _ fuel hf cur hc
    obtain ⟨f, rfl⟩ : ∃ f, fuel = f + 1 := ⟨fuel - 1, by omega⟩
    have hcr : cur = root := by
      cases cur
      cases root
      simp_all
    unfold dirWalk
    rw [if_pos hcr]
    simp
  | append_singleton l a ih =>
    intro hσ fuel hf cur hc
    obtain ⟨f, rfl⟩ : ∃ f, fuel = f + 1 := ⟨fuel - 1, by omega⟩
    have ha : a ≠ "/" := hσ a (by simp)
    have hcparts : cur.parts = (root.parts ++ l) ++ [a] := by
      rw [hc, List.append_assoc]
    have hcur_ne : cur ≠ root := by
      intro he
      have := congrArg (fun q => q.parts.length) he
      simp only [hc] at this
      simp at this
    have hlast : cur.parts.getLast? = some a := by
      rw [hcparts]
      exact List.getLast?_concat _
    have hname : cur.name = a := by
      unfold PyPath.name
      rw [hlast]
      simp [ha]
    unfold dirWalk
    rw [if_neg hcur_ne, hname]
    by_cases had : a ∈ dirs
    · rw [if_pos had]
      have : decide (∀ t ∈ l ++ [a], t ∉ dirs) = false := by
        rw [decide_eq_false_iff_not]
        intro hall
        exact (hall a (by simp)) had
      rw [this]
    · rw [if_neg had]
      have hparent : cur.parent = ⟨root.parts ++ l⟩ := by
        unfold PyPath.parent
        have h1 : ¬(cur.parts = [] ∨ cur.parts = ["/"]) := by
          rw [hcparts]
          rintro (h0 | h0)
          · simp at h0
          · have := congrArg List.getLast? h0
            rw [List.getLast?_concat] at this
            simp at this
            exact ha this
        rw [if_neg h1, hcparts, List.dropLast_concat]
      rw [hparent]
      have hres := ih (fun t ht => hσ t (List.mem_append_left _ ht)) f
        (by simp at hf ⊢; omega) ⟨root.parts ++ l⟩ rfl
      rw [hres]
      have : decide (∀ t ∈ l, t ∉ dirs) = decide (∀ t ∈ l ++ [a], t ∉ dirs) := by
        rw [decide_eq_decide]
        constructor
        · intro hl t ht
          rcases List.mem_append.mp ht with h | h
          · exact hl t h
          · rw [List.mem_singleton.mp h]
            exact had
        · intro hall t ht
          exact hall t (List.mem_append_left _ ht)
      rw [this]

/-- An ancestor root decomposes the candidate's parts as the root's parts
followed by the walked names, none of which is the root marker. -/
theorem ancestor_sigma (rootS pS : String)
    (h : ancestorOf (PyPath.ofString rootS) (PyPath.ofString pS)) :
    (PyPath.ofString pS).parts =
      (PyPath.ofString rootS).parts ++
        (PyPath.ofString pS).parts.drop (PyPath.ofString rootS).parts.length
    ∧ ∀ t ∈ (PyPath.ofString pS).parts.drop (PyPath.ofString rootS).parts.length, t ≠ "/" := by
  obtain ⟨hpref, hnd⟩ := h
  refine ⟨isPrefixOf_append_drop _ _ hpref, ?_⟩
  by_cases hroot : (PyPath.ofString rootS).parts = []
  · rw [hroot]
    simp only [List.length_nil, List.drop_zero]
    have habs : (PyPath.ofString pS).isAbs = false := by
      cases habs' : (PyPath.ofString pS).isAbs
      · rfl
      · exact absurd ⟨hroot, habs'⟩ hnd
    exact ofString_not_abs_ne_slash pS habs
  · have hk : 1 ≤ (PyPath.ofString rootS).parts.length := by
      cases hl : (PyPath.ofString rootS).parts with
      | nil => exact absurd hl hroot
      | cons _ _ => simp [hl]
    exact ofString_drop_ne_slash pS _ hk

/-- C10: when the normalized root is an ancestor of the normalized candidate
(the root's parts are an initial run of the candidate's, excluding the
degenerate relative-root/absolute-candidate combination), the parent walk of
`_should_process_file` exits within `parts`-difference many steps; the
precondition is necessary — for the non-ancestor root `"/r"` and candidate
`"a/b"` the walk never exits however much fuel it is given, because at the
filesystem top a path is its own parent. -/
theorem claim10_walk_termination :
    (∀ (dirs : PySet) (rootS pS : String) (fuel : Nat),
        ancestorOf (PyPath.ofString rootS) (PyPath.ofString pS) →
        (PyPath.ofString pS).parts.length - (PyPath.ofString rootS).parts.length < fuel →
        dirWalk dirs (PyPath.ofString rootS) fuel (PyPath.ofString pS) ≠ none)
    ∧ (∀ fuel : Nat, dirWalk [] (PyPath.ofString "/r") fuel (PyPath.ofString "a/b") = none)
    ∧ PyPath.parent ⟨[]⟩ = ⟨[]⟩ ∧ PyPath.parent ⟨["/"]⟩ = ⟨["/"]⟩ := by
  refine ⟨?_, ?_, rfl, rfl⟩
  · intro dirs rootS pS fuel hanc hf
    obtain ⟨hdec, hns⟩ := ancestor_sigma rootS pS hanc
    have hlen :
        ((PyPath.ofString pS).parts.drop (PyPath.ofString rootS).parts.length).length < fuel := by
      rw [List.length_drop]
      exact hf
    rw [dirWalk_eq dirs (PyPath.ofString rootS) _ hns fuel hlen _ hdec]
    simp
  · have haux : ∀ f : Nat, dirWalk [] (PyPath.ofString "/r") f ⟨[]⟩ = none := by
      intro f
      induction f with
      | zero => rfl
      | succ f ih =>
        unfold dirWalk
        rw [if_neg (by decide), if_neg (by decide)]
        exact ih
    have haux1 : ∀ f : Nat, dirWalk [] (PyPath.ofString "/r") f ⟨["a"]⟩ = none := by
      intro f
      cases f with
      | zero => rfl
      | succ f =>
        unfold dirWalk
        rw [if_neg (by decide), if_neg (by decide)]
        exact haux f
    intro fuel
    cases fuel with
    | zero => rfl
    | succ f =>
      unfold dirWalk
      rw [if_neg (by decide), if_neg (by decide)]
      exact haux1 f

/-- Witness for C10 at a concrete root and candidate. -/
theorem claim10_witness :
    dirWalk ["venv"] (PyPath.ofString "/repo") 4 (PyPath.ofString "/repo/src/a.py") ≠ none :=
  claim10_walk_termination.1 ["venv"] "/repo" "/repo/src/a.py" 4
    (by unfold ancestorOf; exact ⟨by decide, by decide⟩) (by decide)

/-- C1: `_should_process_file` answers `true` exactly when the three checks
pass.  Remotely, every segment of the relative path is checked against the
ignored directory names; locally, the names from the candidate up to (but not
including) the repository root are checked (stated under the ancestor
precondition with enough fuel, cf. C10).  In both modes the base name must
not be an ignored file name and the suffix (with its leading dot) must be an
allowed extension; any path whose suffix is not allowed is rejected whatever
the ignore rules say, and a file with no extension (empty suffix, the empty
suffix not being an allowed extension) is rejected. -/
theorem claim1_should_process_file :
    (∀ (sc : Scraper) (fuel : Nat) (fp : String), sc.is_remote = true →
        (shouldProcessFile sc fuel fp = some true ↔
          (∀ t ∈ (PyPath.ofString fp).parts, t ∉ sc.ignored_dirs)
          ∧ (PyPath.ofString fp).name ∉ sc.ignored_files
          ∧ (PyPath.ofString fp).suffix ∈ sc.file_extensions))
    ∧ (∀ (sc : Scraper) (fuel : Nat) (fp : String), sc.is_remote = false →
        ancestorOf (PyPath.ofString sc.repo_path) (PyPath.ofString fp) →
        (PyPath.ofString fp).parts.length - (PyPath.ofString sc.repo_path).parts.length < fuel →
        (shouldProcessFile sc fuel fp = some true ↔
          (∀ t ∈ (PyPath.ofString fp).parts.drop (PyPath.ofString sc.repo_path).parts.length,
              t ∉ sc.ignored_dirs)
          ∧ (PyPath.ofString fp).name ∉ sc.ignored_files
          ∧ (PyPath.ofString fp).suffix ∈ sc.file_extensions))
    ∧ (∀ (sc : Scraper) (fuel : Nat) (fp : String),
        (PyPath.ofString fp).suffix ∉ sc.file_extensions →
        shouldProcessFile sc fuel fp ≠ some true)
    ∧ (∀ (sc : Scraper) (fuel : Nat) (fp : String),
        (PyPath.ofString fp).suffix = "" → "" ∉ sc.file_extensions →
        shouldProcessFile sc fuel fp ≠ some true) := by
  have hext : ∀ (sc : Scraper) (fuel : Nat) (fp : String),
      (PyPath.ofString fp).suffix ∉ sc.file_extensions →
      shouldProcessFile sc fuel fp ≠ some true := by
    intro sc fuel fp hsuf heq
    unfold shouldProcessFile at heq
    split at heq
    · split at heq
      · exact absurd heq (by simp)
      · split at heq
        · exact absurd heq (by simp)
        · exact hsuf (of_decide_eq_true (Option.some.inj heq))
    · split at heq
      · exact absurd heq (by simp)
      · exact absurd heq (by simp)
      · split at heq
        · exact absurd heq (by simp)
        · exact hsuf (of_decide_eq_true (Option.some.inj heq))
  refine ⟨?_, ?_, hext, fun sc fuel fp h0 hne => hext sc fuel fp (by rw [h0]; exact hne)⟩
  · intro sc fuel fp hrem
    unfold shouldProcessFile
    rw [hrem]
    simp only [if_true]
    by_cases h1 :
        (PyPath.ofString fp).parts.any (fun part => decide (part ∈ sc.ignored_dirs)) = true
    · rw [if_pos h1]
      constructor
      · intro h
        exact absurd h (by simp)
      · rintro ⟨hall, -, -⟩
        obtain ⟨t, ht, htd⟩ := List.any_eq_true.mp h1
        exact absurd (of_decide_eq_true htd) (hall t ht)
    · rw [if_neg h1]
      have hall : ∀ t ∈ (PyPath.ofString fp).parts, t ∉ sc.ignored_dirs := by
        intro t ht htd
        exact h1 (List.any_eq_true.mpr ⟨t, ht, decide_eq_true htd⟩)
      by_cases h2 : (PyPath.ofString fp).name ∈ sc.ignored_files
      · rw [if_pos h2]
        constructor
        · intro h
          exact absurd h (by simp)
        · rintro ⟨-, hnf, -⟩
          exact absurd h2 hnf
      · rw [if_neg h2]
        constructor
        · intro h
          exact ⟨hall, h2, of_decide_eq_true (Option.some.inj h)⟩
        · rintro ⟨-, -, hsuf⟩
          rw [decide_eq_true hsuf]
  · intro sc fuel fp hrem hanc hflen
    obtain ⟨hdec, hns⟩ := ancestor_sigma sc.repo_path fp hanc
    have hlen :
        ((PyPath.ofString fp).parts.drop
          (PyPath.ofString sc.repo_path).parts.length).length < fuel := by
      rw [List.length_drop]
      exact hflen
    have hwalk := dirWalk_eq sc.ignored_dirs (PyPath.ofString sc.repo_path) _ hns fuel hlen _ hdec
    unfold shouldProcessFile
    rw [hrem]
    simp only [Bool.false_eq_true, if_false]
    rw [hwalk]
    by_cases hσ : ∀ t ∈ (PyPath.ofString fp).parts.drop
        (PyPath.ofString sc.repo_path).parts.length, t ∉ sc.ignored_dirs
    · rw [decide_eq_true hσ]
      show (if (PyPath.ofString fp).name ∈ sc.ignored_files then some false
          else some (decide ((PyPath.ofString fp).suffix ∈ sc.file_extensions))) = some true ↔ _
      by_cases h2 : (PyPath.ofString fp).name ∈ sc.ignored_files
      · rw [if_pos h2]
        constructor
        · intro h
          exact absurd h (by simp)
        · rintro ⟨-, hnf, -⟩
          exact absurd h2 hnf
      · rw [if_neg h2]
        constructor
        · intro h
          exact ⟨hσ, h2, of_decide_eq_true (Option.some.inj h)⟩
        · rintro ⟨-, -, hsuf⟩
          rw [decide_eq_true hsuf]
    · rw [decide_eq_false hσ]
      show (some false : Option Bool) = some true ↔ _
      constructor
      · intro h
        exact absurd h (by simp)
      · rintro ⟨hall, -, -⟩
        exact absurd hall hσ

/-- Witness for C1 at a concrete scraper, fuel and path in each mode. -/
theorem claim1_witness :
    (shouldProcessFile sampleRemoteSc 0 "src/a.py" = some true ↔
      (∀ t ∈ (PyPath.ofString "src/a.py").parts, t ∉ sampleRemoteSc.ignored_dirs)
      ∧ (PyPath.ofString "src/a.py").name ∉ sampleRemoteSc.ignored_files
      ∧ (PyPath.ofString "src/a.py").suffix ∈ sampleRemoteSc.file_extensions)
    ∧ (shouldProcessFile sampleLocalSc 3 "/repo/src/a.py" = some true ↔
      (∀ t ∈ (PyPath.ofString "/repo/src/a.py").parts.drop
          (PyPath.ofString sampleLocalSc.repo_path).parts.length,
          t ∉ sampleLocalSc.ignored_dirs)
      ∧ (PyPath.ofString "/repo/src/a.py").name ∉ sampleLocalSc.ignored_files
      ∧ (PyPath.ofString "/repo/src/a.py").suffix ∈ sampleLocalSc.file_extensions)
    ∧ shouldProcessFile sampleLocalSc 3 "/repo/README" ≠ some true :=
  ⟨claim1_should_process_file.1 sampleRemoteSc 0 "src/a.py" rfl,
   claim1_should_process_file.2.1 sampleLocalSc 3 "/repo/src/a.py" rfl
     (by unfold ancestorOf; exact ⟨by decide, by decide⟩) (by decide),
   claim1_should_process_file.2.2.2 sampleLocalSc 3 "/repo/README" (by decide) (by decide)⟩

/-! ## Lemmas: the remote and local dictionaries -/

theorem dictKeys_dictInsert_mem (k v p : String) (d : List (String × String)) :
    p ∈ dictKeys (dictInsert k v d) ↔ p = k ∨ p ∈ dictKeys d := by
  unfold dictInsert
  split
  · next h =>
    have hmap : dictKeys (d.map (fun kv => if kv.1 = k then (k, v) else kv)) = dictKeys d := by
      unfold dictKeys
      rw [List.map_map]
      apply List.map_congr_left
      intro kv _
      by_cases hk : kv.1 = k
      · simp [hk]
      · simp [hk]
    rw [hmap]
    obtain ⟨kv0, hkv0, hk0⟩ := List.any_eq_true.mp h
    have hkmem : k ∈ dictKeys d :=
      List.mem_map.mpr ⟨kv0, hkv0, beq_iff_eq.mp hk0⟩
    constructor
    · exact Or.inr
    · rintro (rfl | hp)
      · exact hkmem
      · exact hp
  · unfold dictKeys
    rw [List.map_append]
    simp [or_comm]

theorem mem_dictInsert (k v : String) (d : List (String × String)) (p x : String) :
    (p, x) ∈ dictInsert k v d → (p = k ∧ x = v) ∨ (p, x) ∈ d := by
  unfold dictInsert
  split
  · intro hm
    obtain ⟨kv, hkv, hf⟩ := List.mem_map.mp hm
    by_cases hk : kv.1 = k
    · rw [if_pos hk] at hf
      left
      obtain ⟨h1, h2⟩ := Prod.mk.injEq .. ▸ hf
      exact ⟨h1.symm, h2.symm⟩
    · rw [if_neg hk] at hf
      right
      rw [← hf]
      exact hkv
  · intro hm
    rcases List.mem_append.mp hm with h | h
    · exact Or.inr h
    · left
      obtain ⟨h1, h2⟩ := Prod.mk.injEq .. ▸ List.mem_singleton.mp h
      exact ⟨h1, h2⟩

theorem mem_dictKeys_stepItem (sc : Scraper) (fb : String → BlobResp) (item : TreeItem)
    (acc : List (String × String)) (p : String) :
    p ∈ dictKeys (stepItem sc fb item acc) ↔
      (goodItem sc fb item ∧ item.path = p) ∨ p ∈ dictKeys acc := by
  unfold stepItem goodItem
  by_cases h1 : item.itemType = "blob"
  · by_cases h2 : shouldProcessFile sc 0 item.path = some true
    · by_cases h3 : (fb item.url).status_code = 200
      · cases hdec : decodeBlob (fb item.url) with
        | none => simp [h1, h2, h3, hdec]
        | some content =>
          simp only [h1, h2, h3, hdec, if_true, if_pos]
          rw [dictKeys_dictInsert_mem]
          simp only [Option.isSome_some, true_and, and_true]
          constructor
          · rintro (rfl | h)
            · exact Or.inl rfl
            · exact Or.inr h
          · rintro (rfl | h)
            · exact Or.inl rfl
            · exact Or.inr h
      · simp [h1, h2, h3]
    · simp [h1, h2]
  · simp [h1]

theorem mem_dictKeys_processTree (sc : Scraper) (fb : String → BlobResp) (p : String) :
    ∀ (items : List TreeItem) (acc : List (String × String)),
      p ∈ dictKeys (processTree sc fb items acc) ↔
        p ∈ dictKeys acc ∨ ∃ item ∈ items, goodItem sc fb item ∧ item.path = p
  | [], acc => by simp [processTree]
  | item :: rest, acc => by
    rw [processTree, mem_dictKeys_processTree sc fb p rest (stepItem sc fb item acc),
      mem_dictKeys_stepItem]
    simp only [List.mem_cons]
    constructor
    · rintro ((⟨hg, hp⟩ | hacc) | ⟨it, hit, hgood⟩)
      · exact Or.inr ⟨item, Or.inl rfl, hg, hp⟩
      · exact Or.inl hacc
      · exact Or.inr ⟨it, Or.inr hit, hgood⟩
    · rintro (hacc | ⟨it, rfl | hit, hgood⟩)
      · exact Or.inl (Or.inr hacc)
      · exact Or.inl (Or.inl hgood)
      · exact Or.inr ⟨it, hit, hgood⟩

/-- C3: a non-200 listing response yields an empty result for the whole
remote operation, while with a successful listing the result's keys are
exactly the paths of `blob` entries that pass the filter, whose individual
fetch returned 200 and whose payload decoded — so a failed or undecodable
blob omits only its own path and every other fetched-and-decoded file is
present. -/
theorem claim3_remote_error_handling :
    (∀ (sc : Scraper) (tr : TreeResp) (fb : String → BlobResp),
        tr.status_code ≠ 200 → scrape_remote_repository sc tr fb = [])
    ∧ (∀ (sc : Scraper) (tr : TreeResp) (fb : String → BlobResp) (p : String),
        tr.status_code = 200 →
        (p ∈ dictKeys (scrape_remote_repository sc tr fb) ↔
          ∃ item ∈ tr.tree, goodItem sc fb item ∧ item.path = p)) := by
  constructor
  · intro sc tr fb h
    unfold scrape_remote_repository
    rw [if_pos h]
  · intro sc tr fb p h
    unfold scrape_remote_repository
    rw [if_neg (by simp [h]), mem_dictKeys_processTree]
    simp [dictKeys]

/-- Witness for C3 at concrete responses: a 404 listing gives an empty
result, and with a 200 listing the key characterization holds. -/
theorem claim3_witness :
    scrape_remote_repository sampleRemoteSc sampleTree404 sampleFetchHello = []
    ∧ ("a.py" ∈ dictKeys (scrape_remote_repository sampleRemoteSc sampleTree sampleFetchHello) ↔
        ∃ item ∈ sampleTree.tree, goodItem sampleRemoteSc sampleFetchHello item
          ∧ item.path = "a.py") :=
  ⟨claim3_remote_error_handling.1 sampleRemoteSc sampleTree404 sampleFetchHello (by decide),
   claim3_remote_error_handling.2 sampleRemoteSc sampleTree sampleFetchHello "a.py" rfl⟩

/-! ## Lemmas: the local backend -/

theorem mem_stepFile (sc : Scraper) (fuel : Nat) (fs : String → Except Unit String)
    (root f : String) (acc : List (String × String)) (p x : String) :
    (p, x) ∈ stepFile sc fuel fs root f acc →
      (p = osRelpath (osJoin root f) sc.repo_path ∧ fs (osJoin root f) = Except.ok x ∧ x ≠ "")
      ∨ (p, x) ∈ acc := by
  unfold stepFile
  split
  · split
    · next hc =>
      intro hm
      rcases mem_dictInsert _ _ _ _ _ hm with ⟨hp, hx⟩ | hmem
      · left
        refine ⟨hp, ?_, ?_⟩
        · subst hx
          unfold get_file_content at hc ⊢
          cases hfs : fs (osJoin root f) with
          | ok s => rfl
          | error e => rw [hfs] at hc; exact absurd rfl hc
        · subst hx
          unfold get_file_content at hc
          exact hc
      · exact Or.inr hmem
    · exact fun hm => Or.inr hm
  · exact fun hm => Or.inr hm

theorem mem_processFiles (sc : Scraper) (fuel : Nat) (fs : String → Except Unit String)
    (root : String) (p x : String) :
    ∀ (fls : List String) (acc : List (String × String)),
      (p, x) ∈ processFiles sc fuel fs root fls acc →
      (∃ f ∈ fls, p = osRelpath (osJoin root f) sc.repo_path
        ∧ fs (osJoin root f) = Except.ok x ∧ x ≠ "")
      ∨ (p, x) ∈ acc
  | [], acc => fun hm => Or.inr hm
  | f :: rest, acc => by
    intro hm
    rcases mem_processFiles sc fuel fs root p x rest (stepFile sc fuel fs root f acc) hm with
      ⟨g, hg, hrel⟩ | hstep
    · exact Or.inl ⟨g, List.mem_cons_of_mem _ hg, hrel⟩
    · rcases mem_stepFile sc fuel fs root f acc p x hstep with hhit | hacc
      · exact Or.inl ⟨f, List.mem_cons_self .., hhit⟩
      · exact Or.inr hacc

theorem mem_processWalk (sc : Scraper) (fuel : Nat) (fs : String → Except Unit String)
    (p x : String) :
    ∀ (walk : List (String × List String)) (acc : List (String × String)),
      (p, x) ∈ processWalk sc fuel fs walk acc →
      (∃ root fls f, (root, fls) ∈ walk ∧ f ∈ fls
        ∧ p = osRelpath (osJoin root f) sc.repo_path
        ∧ fs (osJoin root f) = Except.ok x ∧ x ≠ "")
      ∨ (p, x) ∈ acc
  | [], acc => fun hm => Or.inr hm
  | (root, fls) :: rest, acc => by
    intro hm
    rcases mem_processWalk sc fuel fs p x rest (processFiles sc fuel fs root fls acc) hm with
      ⟨r, fl, f, hrf, hrel⟩ | hfiles
    · exact Or.inl ⟨r, fl, f, List.mem_cons_of_mem _ hrf, hrel⟩
    · rcases mem_processFiles sc fuel fs root p x fls acc hfiles with ⟨f, hf, hrel⟩ | hacc
      · exact Or.inl ⟨root, fls, f, List.mem_cons_self .., hf, hrel⟩
      · exact Or.inr hacc

/-- C4: in the local backend every stored entry comes from a file of the walk
whose read succeeded with a non-empty string — a read that raised (modelled
as `Except.error`, surfaced by `get_file_content` as `""`) or a legitimately
empty read is skipped — and the entry is keyed by the file's path relative to
the repository root. -/
theorem claim4_local_scrape_entries :
    ∀ (sc : Scraper) (fuel : Nat) (tr : TreeResp) (fb : String → BlobResp)
      (walk : List (String × List String)) (fs : String → Except Unit String) (p x : String),
      sc.is_remote = false →
      (p, x) ∈ scrape_repository sc fuel true tr fb walk fs →
      x ≠ "" ∧ ∃ root fls f, (root, fls) ∈ walk ∧ f ∈ fls
        ∧ p = osRelpath (osJoin root f) sc.repo_path
        ∧ fs (osJoin root f) = Except.ok x := by
  intro sc fuel tr fb walk fs p x hrem hm
  unfold scrape_repository at hm
  rw [hrem] at hm
  simp only [if_false, Bool.false_eq_true, Bool.not_true] at hm
  rcases mem_processWalk sc fuel fs p x walk [] hm with
    ⟨root, fls, f, hrf, hf, hrel, hok, hne⟩ | habs
  · exact ⟨hne, root, fls, f, hrf, hf, hrel, hok⟩
  · cases habs

/-- Witness for C4 at a concrete local scrape. -/
theorem claim4_witness :
    "code" ≠ "" ∧ ∃ root fls f, (root, fls) ∈ [("/repo", ["a.py"])] ∧ f ∈ fls
      ∧ "a.py" = osRelpath (osJoin root f) sampleLocalSc.repo_path
      ∧ sampleFs (osJoin root f) = Except.ok "code" :=
  claim4_local_scrape_entries sampleLocalSc 3 sampleTree sampleFetchHello
    [("/repo", ["a.py"])] sampleFs "a.py" "code" rfl (by decide)

/-! ## Lemmas: the aggregator -/

theorem strToList_append (s t : String) : (s ++ t).toList = s.toList ++ t.toList :=
  String.data_append s t

theorem pyJoinStr_cons (sep x : String) (xs : List String) (h : xs ≠ []) :
    pyJoinStr sep (x :: xs) = x ++ sep ++ pyJoinStr sep xs := by
  cases xs with
  | nil => exact absurd rfl h
  | cons y ys => rfl

theorem pyJoinStr_append (sep : String) :
    ∀ (l1 l2 : List String), l1 ≠ [] → l2 ≠ [] →
      pyJoinStr sep (l1 ++ l2) = pyJoinStr sep l1 ++ sep ++ pyJoinStr sep l2
  | [], _, h1, _ => absurd rfl h1
  | [x], l2, _, h2 => by
    rw [List.singleton_append, pyJoinStr_cons sep x l2 h2]
    rfl
  | x :: y :: l1, l2, _, h2 => by
    have hne : (y :: l1) ++ l2 ≠ [] := by simp
    rw [List.cons_append, pyJoinStr_cons sep x ((y :: l1) ++ l2) hne,
      pyJoinStr_append sep (y :: l1) l2 (by simp) h2,
      pyJoinStr_cons sep x (y :: l1) (by simp)]
    simp [String.append_assoc]

/-- The formatted text of a single file, as the join of its four pieces. -/
theorem blockOf_join_eq_subOf (p c : String) :
    pyJoinStr "\n" (blockOf (p, c)) = subOf p c := by
  show ("\n### File: " ++ p) ++ "\n" ++
      (("```" ++ strDrop (PyPath.ofString p).suffix 1) ++ "\n" ++ (c ++ "\n" ++ "```\n")) =
    subOf p c
  unfold subOf
  simp [String.append_assoc]

theorem format_for_llm_single (kv : String × String) :
    format_for_llm [kv] = pyJoinStr "\n" (blockOf kv) := by
  unfold format_for_llm
  simp

theorem format_for_llm_cons (kv : String × String) (rest : List (String × String))
    (h : rest ≠ []) :
    format_for_llm (kv :: rest) =
      pyJoinStr "\n" (blockOf kv) ++ "\n" ++ format_for_llm rest := by
  unfold format_for_llm
  rw [List.flatMap_cons]
  have h2 : rest.flatMap blockOf ≠ [] := by
    cases rest with
    | nil => exact absurd rfl h
    | cons r rs => simp [blockOf]
  exact pyJoinStr_append "\n" (blockOf kv) (rest.flatMap blockOf) (by simp [blockOf]) h2

/-- C6: the aggregate output contains, for every `(relativePath, content)`
entry, the block made of a header line with the path, an opening fence tagged
with the extension minus its leading dot, the content verbatim, and a closing
fence, with blank-line separation between blocks; and the single-entry result
`{"a.py": "x = 1"}` yields output containing the literal substrings
`"### File: a.py"` and a fence tagged `py` wrapping `"x = 1"`. -/
theorem claim6_formatter :
    (∀ (cc : List (String × String)) (p c : String), (p, c) ∈ cc →
        strContains (format_for_llm cc) (subOf p c))
    ∧ strContains (format_for_llm [("a.py", "x = 1")]) "### File: a.py"
    ∧ strContains (format_for_llm [("a.py", "x = 1")]) "```py\nx = 1\n```" := by
  refine ⟨?_, ⟨"\n".toList, "\n```py\nx = 1\n```\n".toList, by decide⟩,
    ⟨"\n### File: a.py\n".toList, "\n".toList, by decide⟩⟩
  intro cc p c
  induction cc with
  | nil => intro h; cases h
  | cons kv rest ih =>
    intro h
    rcases List.mem_cons.mp h with heq | hmem
    · obtain ⟨q, d⟩ := kv
      obtain ⟨hq, hd⟩ := Prod.mk.injEq .. ▸ heq.symm
      subst hq
      subst hd
      cases hrest : rest with
      | nil =>
        refine ⟨[], [], ?_⟩
        rw [format_for_llm_single, blockOf_join_eq_subOf]
        simp
      | cons r rs =>
        refine ⟨[], ("\n" ++ format_for_llm rest).toList, ?_⟩
        rw [← hrest, format_for_llm_cons _ rest (by rw [hrest]; simp),
          blockOf_join_eq_subOf, String.append_assoc, strToList_append]
        simp
    · have hrest : rest ≠ [] := by
        intro hr
        rw [hr] at hmem
        cases hmem
      obtain ⟨pre, post, hp⟩ := ih hmem
      refine ⟨(pyJoinStr "\n" (blockOf kv) ++ "\n").toList ++ pre, post, ?_⟩
      rw [format_for_llm_cons kv rest hrest, String.append_assoc, strToList_append,
        strToList_append, hp]
      simp

/-- Witness for the hypothesised part of C6 at a concrete result. -/
theorem claim6_witness :
    strContains (format_for_llm [("a.py", "x = 1"), ("b", "y")]) (subOf "b" "y") :=
  claim6_formatter.1 [("a.py", "x = 1"), ("b", "y")] "b" "y" (by simp)

/-- Witness for the hypothesised parts of C5 at concrete responses. -/
theorem claim5_witness :
    decodeBlob ⟨200, "aGVsbG8=", "base64"⟩ = some (utf8ReplaceStr [104, 101, 108, 108, 111])
    ∧ decodeBlob ⟨200, "raw text", ""⟩ = some "raw text" :=
  ⟨claim5_blob_decoding.1 ⟨200, "aGVsbG8=", "base64"⟩ [104, 101, 108, 108, 111]
     (by decide) (by decide),
   claim5_blob_decoding.2.1 ⟨200, "raw text", ""⟩ (by decide)⟩

end GitScrap
